import Mathlib

/-! WinMerge 2011: classification, statistics, byte compare and string routines

A shallow embedding of parts of the WinMerge 2011 sources:

* `Src/CompareStats.cpp`: `CompareStats.GetColImage`, the classifier that maps
  the flags of a compared item to one result category, and `CompareStats.Reset`,
  `CompareStats.GetCount`, `CompareStats.AddItem` and the constructor, the
  counter table with one `LONG` counter per category; concurrent callers of
  `AddItem` are schedules of its two indivisible increments;
* `Src/CompareEngines/ByteCompare.h`: `CompareEngines.ByteCompare.CompareFiles`,
  of which the sources hold the declaration only;
* `Src/Common/coretools.cpp`: `linelen` and `DecorateCmdLine`;
* `Src/ExternalArchiveFormat.cpp`: `SP2NBSP`.

Strings are lists of characters. Loops are functions that count down the number
of turns they are still allowed; they return `none` when the turns are used up,
and the theorems show that this does not happen. The declarations of `DIFFITEM`
(DiffItem.h) and of the class members (CompareStats.h) and a few helper
routines are not part of the sources at hand; what the code needs of them is
introduced below and marked as such.
-/

/-! ## Machine integers -/

/-- Smallest value of the 32 bit signed Win32 type LONG. -/
def LONG_MIN : Int := -2147483648

/-- Largest value of the 32 bit signed Win32 type LONG. -/
def LONG_MAX : Int := 2147483647

/-- Reduction of an integer to the two's complement range of a LONG. -/
def wrapLONG (x : Int) : Int := (x + 2147483648) % 4294967296 - 2147483648

/-- Win32 InterlockedIncrement on a LONG variable, seen as one indivisible step:
the stored value is replaced by its successor, wrapping around at LONG_MAX. -/
def InterlockedIncrement (x : Int) : Int := wrapLONG (x + 1)

/-! ## Data model -/

/-- Modelled from the spec: the enumeration `CompareStats::RESULT` declared in
CompareStats.h, which is missing from the sources. Its members are the seventeen
result categories of the spec (section 3, ResultCategory), under the names that
`GetColImage` uses for them. -/
inductive CompareStats.RESULT
  | DIFFIMG_ERROR
  | DIFFIMG_ABORT
  | DIFFIMG_DIRSKIP
  | DIFFIMG_SKIP
  | DIFFIMG_LDIRUNIQUE
  | DIFFIMG_LUNIQUE
  | DIFFIMG_RDIRUNIQUE
  | DIFFIMG_RUNIQUE
  | DIFFIMG_DIRSAME
  | DIFFIMG_TEXTSAME
  | DIFFIMG_BINSAME
  | DIFFIMG_SAME
  | DIFFIMG_DIRDIFF
  | DIFFIMG_TEXTDIFF
  | DIFFIMG_BINDIFF
  | DIFFIMG_DIFF
  | DIFFIMG_DIR
  deriving DecidableEq, Repr, Fintype

/-- Modelled from the spec: the item record `DIFFITEM` declared in DiffItem.h,
which is missing from the sources. `GetColImage` only ever asks an item the ten
questions below, so an item is represented by the ten answers; no relation
between the answers is assumed. -/
structure DIFFITEM where
  isResultError : Bool
  isResultAbort : Bool
  isResultFiltered : Bool
  isSideLeftOnly : Bool
  isSideRightOnly : Bool
  isResultSame : Bool
  isResultDiff : Bool
  isDirectory : Bool
  isText : Bool
  isBin : Bool
  deriving DecidableEq, Repr

/-- The data members of class `CompareStats` that CompareStats.cpp reads and
writes: the counter array indexed by result category, the declared total and the
number of items compared so far. All three hold LONG values. -/
structure CompareStats where
  m_counts : CompareStats.RESULT → Int
  m_nTotalItems : Int
  m_nComparedItems : Int

namespace CompareStats

open RESULT

/-! ## Operations -/

/-- `CompareStats::GetColImage` (CompareStats.cpp, lines 64 to 99). -/
def GetColImage (di : DIFFITEM) : RESULT :=
  if di.isResultError then DIFFIMG_ERROR
  else if di.isResultAbort then DIFFIMG_ABORT
  else if di.isResultFiltered then
    (if di.isDirectory then DIFFIMG_DIRSKIP else DIFFIMG_SKIP)
  else if di.isSideLeftOnly then
    (if di.isDirectory then DIFFIMG_LDIRUNIQUE else DIFFIMG_LUNIQUE)
  else if di.isSideRightOnly then
    (if di.isDirectory then DIFFIMG_RDIRUNIQUE else DIFFIMG_RUNIQUE)
  else if di.isResultSame then
    (if di.isDirectory then DIFFIMG_DIRSAME
     else if di.isText then DIFFIMG_TEXTSAME
     else if di.isBin then DIFFIMG_BINSAME
     else DIFFIMG_SAME)
  else if di.isResultDiff then
    (if di.isDirectory then DIFFIMG_DIRDIFF
     else if di.isText then DIFFIMG_TEXTDIFF
     else if di.isBin then DIFFIMG_BINDIFF
     else DIFFIMG_DIFF)
  else (if di.isDirectory then DIFFIMG_DIR else DIFFIMG_ABORT)

/-- `CompareStats::Reset` (lines 54 to 59): both item counts are set to zero
and the whole counter array is zero-filled. -/
def Reset (_s : CompareStats) : CompareStats :=
  { m_counts := fun _ => 0, m_nTotalItems := 0, m_nComparedItems := 0 }

/-- The constructor `CompareStats::CompareStats` (lines 16 to 19): it calls
`Reset` on the not yet initialised object, whose content is the argument. The
class name itself is taken by the state type, hence the name `Constructor`. -/
def Constructor (uninitialised : CompareStats) : CompareStats :=
  Reset uninitialised

/-- `CompareStats::GetCount` (lines 45 to 48). -/
def GetCount (s : CompareStats) (result : RESULT) : Int :=
  s.m_counts result

/-- The state change of `CompareStats::AddItem` (lines 32 to 36): the counter of
the item's category and the compared count are each incremented. -/
def AddItem (s : CompareStats) (di : DIFFITEM) : CompareStats :=
  let res := GetColImage di
  { m_counts := Function.update s.m_counts res (InterlockedIncrement (s.m_counts res)),
    m_nTotalItems := s.m_nTotalItems,
    m_nComparedItems := InterlockedIncrement s.m_nComparedItems }

/-- The condition asserted on the last line of `CompareStats::AddItem`
(line 37), evaluated on the state that the two increments have produced. -/
def AddItemAssertion (s : CompareStats) (di : DIFFITEM) : Bool :=
  decide ((AddItem s di).m_nComparedItems ≤ (AddItem s di).m_nTotalItems)

/-- The values a LONG variable can hold. -/
def IsLONG (x : Int) : Prop := LONG_MIN ≤ x ∧ x ≤ LONG_MAX

instance (x : Int) : Decidable (IsLONG x) :=
  inferInstanceAs (Decidable (LONG_MIN ≤ x ∧ x ≤ LONG_MAX))

/-- A state of the object as it exists in memory: every data member holds a LONG
value. -/
def Valid (s : CompareStats) : Prop :=
  (∀ c : RESULT, IsLONG (s.m_counts c)) ∧ IsLONG s.m_nTotalItems ∧
    IsLONG s.m_nComparedItems

instance (s : CompareStats) : Decidable (Valid s) :=
  inferInstanceAs (Decidable ((∀ c : RESULT, IsLONG (s.m_counts c)) ∧
    IsLONG s.m_nTotalItems ∧ IsLONG s.m_nComparedItems))

/-- Modelled from the spec: the operation `SetTotal(n)` of section 4.4, declared
in CompareStats.h, which is missing from the sources. It records the number of
items that the run is going to compare and touches nothing else. -/
def SetTotal (s : CompareStats) (n : Int) : CompareStats :=
  { s with m_nTotalItems := n }

/-- A sequence of `AddItem` calls, taken one after another in list order. -/
def AddItems (s : CompareStats) (items : List DIFFITEM) : CompareStats :=
  items.foldl AddItem s

/-- The sum of `GetCount` over all result categories, as a mathematical
integer. -/
def sumCounts (s : CompareStats) : Int :=
  ∑ c : RESULT, GetCount s c

/-- The two writes of one `AddItem` call (lines 35 and 36), each an
`InterlockedIncrement` and so one indivisible step on the shared object: the
increment of the counter of a category and the increment of the compared count.
The classification on line 34 reads the item only, and the assertion on line 37
writes nothing. -/
inductive Step
  | incrementCount (res : RESULT)
  | incrementCompared
  deriving DecidableEq, Repr

/-- The effect of one indivisible step on the shared object. -/
def applyStep (s : CompareStats) : Step → CompareStats
  | Step.incrementCount res =>
    { s with m_counts := Function.update s.m_counts res (InterlockedIncrement (s.m_counts res)) }
  | Step.incrementCompared =>
    { s with m_nComparedItems := InterlockedIncrement s.m_nComparedItems }

/-- The steps that the call `AddItem(di)` takes, in program order. -/
def stepsOf (di : DIFFITEM) : List Step :=
  [Step.incrementCount (GetColImage di), Step.incrementCompared]

/-- The schedules of concurrently running workers: `Interleaving threads sched`
says that `sched` takes every step of every worker exactly once and keeps the
program order of each worker, `threads` listing the steps that each worker still
has to take. -/
inductive Interleaving : List (List Step) → List Step → Prop
  | done (threads : List (List Step)) (h : ∀ t ∈ threads, t = []) : Interleaving threads []
  | step (before after : List (List Step)) (x : Step) (rest sched : List Step)
      (h : Interleaving (before ++ rest :: after) sched) :
      Interleaving (before ++ (x :: rest) :: after) (x :: sched)

/-- The run of a schedule on the shared object. -/
def runSchedule (s : CompareStats) (sched : List Step) : CompareStats :=
  sched.foldl applyStep s

/-! ## Sample inputs -/

/-- An item for which every query answers no: a file that has not been compared
yet. -/
def sampleUncomparedFile : DIFFITEM :=
  { isResultError := false, isResultAbort := false, isResultFiltered := false,
    isSideLeftOnly := false, isSideRightOnly := false, isResultSame := false,
    isResultDiff := false, isDirectory := false, isText := false, isBin := false }

/-- A directory that has not been compared yet. -/
def sampleUncomparedDir : DIFFITEM :=
  { sampleUncomparedFile with isDirectory := true }

/-- A filtered directory whose comparison ended in an error. -/
def sampleErrorItem : DIFFITEM :=
  { sampleUncomparedDir with isResultError := true, isResultFiltered := true }

/-- A filtered directory whose comparison was aborted. -/
def sampleAbortItem : DIFFITEM :=
  { sampleUncomparedDir with isResultAbort := true, isResultFiltered := true }

/-- A filtered directory that is flagged identical. -/
def sampleFilteredDir : DIFFITEM :=
  { sampleUncomparedDir with isResultFiltered := true, isResultSame := true }

/-- A filtered text file that is flagged different. -/
def sampleFilteredFile : DIFFITEM :=
  { sampleUncomparedFile with isResultFiltered := true, isResultDiff := true, isText := true }

/-- A file present on the left side only, flagged different. -/
def sampleLeftOnlyFile : DIFFITEM :=
  { sampleUncomparedFile with isSideLeftOnly := true, isResultDiff := true }

/-- A directory present on the right side only. -/
def sampleRightOnlyDir : DIFFITEM :=
  { sampleUncomparedDir with isSideRightOnly := true }

/-- An identical file flagged both text and binary. -/
def sampleSameTextBin : DIFFITEM :=
  { sampleUncomparedFile with isResultSame := true, isText := true, isBin := true }

/-- A different file flagged binary only. -/
def sampleDiffBin : DIFFITEM :=
  { sampleUncomparedFile with isResultDiff := true, isBin := true }

/-- A run in progress: five items announced, two of them compared, both binary
files that differ. -/
def sampleRunning : CompareStats :=
  { m_counts := Function.update (fun _ => 0) DIFFIMG_BINDIFF 2,
    m_nTotalItems := 5,
    m_nComparedItems := 2 }

/-- The state after Reset, a total of LONG_MAX items and LONG_MAX calls of
AddItem with a binary file that differs: both the counter of DIFFIMG_BINDIFF and
the compared count have reached LONG_MAX. -/
def sampleSaturated : CompareStats :=
  { m_counts := Function.update (fun _ => 0) DIFFIMG_BINDIFF 2147483647,
    m_nTotalItems := 2147483647,
    m_nComparedItems := 2147483647 }

/-- A run of LONG_MAX binary files that differ, followed by one file that was
never compared. -/
def sampleLongRun : List DIFFITEM :=
  List.replicate 2147483647 sampleDiffBin ++ [sampleUncomparedFile]

/-- A short run of three items of three different categories. -/
def sampleShortRun : List DIFFITEM :=
  [sampleDiffBin, sampleUncomparedFile, sampleErrorItem]

/-- Two workers, one adding a binary file that differs and one adding a file
that was never compared. -/
def sampleWorkers : List DIFFITEM :=
  [sampleDiffBin, sampleUncomparedFile]

/-- A schedule of the two workers in which both counters of categories are
stepped before either worker steps the compared count. -/
def sampleSchedule : List Step :=
  [Step.incrementCount DIFFIMG_BINDIFF, Step.incrementCount DIFFIMG_ABORT,
   Step.incrementCompared, Step.incrementCompared]

end CompareStats

/-! ## The byte comparator -/

namespace CompareEngines

/-- Modelled from the spec: the outcome of one comparison (section 3,
CompareOutcome). `ByteCompare::CompareFiles` returns it as an `unsigned` whose
values are declared in a header that is missing from the sources. -/
inductive CompareOutcome
  | Same
  | Different
  | Error
  deriving DecidableEq, Repr

/-- Modelled from the spec: one side of a comparison as the comparator meets it
(section 3, FileSide, and section 4.1): whether the file can be opened, the code
units the decoding layer delivers for it, and the number of the block read that
ends in an I/O failure, if there is one. -/
structure FileSide (CodePoint : Type) where
  opens : Bool
  content : List CodePoint
  failingRead : Option Nat

/-- Code units of the 8 bit instantiation of the comparator. -/
abbrev CodePoint8 : Type := Fin 256

/-- Code units of the 16 bit instantiation of the comparator. -/
abbrev CodePoint16 : Type := Fin 65536

namespace ByteCompare

/-- Modelled from the spec: the read-and-compare loop of section 4.1, whose code
(ByteCompare.cpp) is missing from the sources. The arguments are the block size,
the failing read of either side, the number of loop turns still allowed, the
number of the coming block read, and what lies behind the cursor of either side.
Each turn reads a block from the left side and a block from the right side, an
I/O failure of either read giving Error; the blocks are compared unit by unit,
a mismatch or one side ending before the other giving Different; when both
sides deliver nothing more the outcome is Same; otherwise both cursors move
behind the blocks. `none` means that the allowed turns were used up. -/
def compareLoop {CodePoint : Type} [DecidableEq CodePoint] (blockSize : Nat)
    (failLeft failRight : Option Nat) :
    Nat → Nat → List CodePoint → List CodePoint → Option CompareOutcome
  | 0, _, _, _ => none
  | turns + 1, k, left, right =>
    if failLeft = some k then some CompareOutcome.Error
    else if failRight = some k then some CompareOutcome.Error
    else if left.take blockSize ≠ right.take blockSize then some CompareOutcome.Different
    else if left.take blockSize = [] then some CompareOutcome.Same
    else compareLoop blockSize failLeft failRight turns (k + 1)
      (left.drop blockSize) (right.drop blockSize)

/-- Modelled from the spec: `ByteCompare::CompareFiles` as section 4.1 describes
it; only its declaration (ByteCompare.h) is part of the sources. Both sides are
opened, a failing open giving Error at once; otherwise the loop runs from the
start of both files, with more turns allowed than the left file has code units.
The text statistics that the comparator gathers on the way are left out. -/
def CompareFiles {CodePoint : Type} [DecidableEq CodePoint] (blockSize : Nat)
    (left right : FileSide CodePoint) : Option CompareOutcome :=
  if left.opens && right.opens then
    compareLoop blockSize left.failingRead right.failingRead (left.content.length + 1) 0
      left.content right.content
  else some CompareOutcome.Error

end ByteCompare

/-- A readable file with the given code units. -/
def readable {CodePoint : Type} (content : List CodePoint) : FileSide CodePoint :=
  { opens := true, content := content, failingRead := none }

end CompareEngines

/-! ## Common routines (coretools.cpp) -/

/-- Largest value of the 32 bit signed type `int`. -/
def INT_MAX : Nat := 2147483647

/-- The loop of `linelen` (coretools.cpp, lines 17 to 22) over the character
array `string`, with the number of turns still allowed and the current value of
`stringlen`. Each turn reads `string[stringlen]`, stops at NUL, at a carriage
return and at a line feed, and otherwise increments `stringlen`. `none` stands
for the two ways in which the loop leaves defined behaviour, a read behind the
last character of the array and an increment of an `int` that holds INT_MAX,
and for the allowed turns being used up. -/
def linelenLoop (string : List Char) : Nat → Nat → Option Nat
  | 0, _ => none
  | turns + 1, stringlen =>
    match string[stringlen]? with
    | none => none
    | some c =>
      if c = '\x00' then some stringlen
      else if c = '\r' ∨ c = '\n' then some stringlen
      else if stringlen = INT_MAX then none
      else linelenLoop string turns (stringlen + 1)

/-- `linelen` (coretools.cpp, lines 14 to 24) on the character array that
`string` points to. The loop is allowed one turn per character of the array. -/
def linelen (string : List Char) : Option Nat :=
  linelenLoop string string.length 0

/-- The C library function `strlen`: the number of characters in front of the
first NUL of the array. -/
def strlen (string : List Char) : Nat :=
  (string.takeWhile (fun c => c ≠ '\x00')).length

/-- Modelled from the spec: the helper `string_trim_ws`, whose code is missing
from the sources; following the comment at its call in `DecorateCmdLine` it
removes whitespace from the beginning and from the end of the string. Which
characters count as whitespace is not visible in the sources: the test is the
parameter `isspace`. -/
def string_trim_ws (isspace : Char → Bool) (s : List Char) : List Char :=
  (s.dropWhile isspace).rdropWhile isspace

/-- The member `find_first_of(chars, pos)` of the standard string class: the
smallest index from `pos` on that holds one of `chars`, `none` standing for
`npos`. -/
def find_first_of (s chars : List Char) (pos : Nat) : Option Nat :=
  (List.range' pos (s.length - pos)).find? (fun i => chars.contains (s.getD i ' '))

/-- The member `insert(pos, 1, c)` of the standard string class for a position
within the string, which is the only way the code below calls it. -/
def string_insert (s : List Char) (pos : Nat) (c : Char) : List Char :=
  s.take pos ++ c :: s.drop pos

/-- The characters that `DecorateCmdLine` takes for the start of a switch. -/
def switchChars : List Char := ['"', '/', '-']

/-- The do-while loop of `DecorateCmdLine` (coretools.cpp, lines 95 to 98), with
the number of turns still allowed and the current `pos`. The outer `none` means
that the allowed turns were used up, the inner one stands for `npos`. -/
def DecorateCmdLineLoop (sCmdLine : List Char) : Nat → Nat → Option (Option Nat)
  | 0, _ => none
  | turns + 1, pos =>
    match find_first_of sCmdLine switchChars (pos + 1) with
    | none => some none
    | some p =>
      if sCmdLine.getD (p - 1) ' ' ≠ ' ' then DecorateCmdLineLoop sCmdLine turns p
      else some (some p)

/-- `DecorateCmdLine` (coretools.cpp, lines 89 to 110). The result is the pair of
the final values of `sCmdLine` and `sExecutable`; the loop is allowed one turn
more than the trimmed command line has characters. -/
def DecorateCmdLine (isspace : Char → Bool) (sCmdLine : List Char) :
    Option (List Char × List Char) :=
  let trimmed := string_trim_ws isspace sCmdLine
  match DecorateCmdLineLoop trimmed (trimmed.length + 1) 0 with
  | none => none
  | some (some pos) =>
    let sExecutable := string_trim_ws isspace (trimmed.take pos)
    some (string_insert (string_insert trimmed sExecutable.length '"') 0 '"', sExecutable)
  | some none => some (trimmed, trimmed)

/-- The command line of the example in the comment of `DecorateCmdLine`. -/
def sampleCmdLine : List Char :=
  ['C', ':', '\\', 'p', ' ', 'a', 't', 'h', '\\', 'e', 'x', '.', 'e', 'x', 'e', ' ',
   '-', 'p', ' ', '-', 'o']

/-- The executable of the example in the comment of `DecorateCmdLine`. -/
def sampleExecutable : List Char :=
  ['C', ':', '\\', 'p', ' ', 'a', 't', 'h', '\\', 'e', 'x', '.', 'e', 'x', 'e']

/-- The index that the description of `linelen` speaks of: the number of
characters in front of the first carriage return, line feed or NUL of the
array. -/
def firstLineEnd (string : List Char) : Nat :=
  (string.takeWhile (fun c => c ≠ '\x00' ∧ c ≠ '\r' ∧ c ≠ '\n')).length

/-- A NUL-terminated string of 2147483648 letters, without any line break. -/
def sampleHugeString : List Char :=
  List.replicate 2147483648 'a' ++ ['\x00']

/-- A NUL-terminated string of two lines. -/
def sampleTwoLines : List Char :=
  ['a', 'b', '\r', '\n', 'c', '\x00']

/-! ## Message texts (ExternalArchiveFormat.cpp) -/

/-- Modelled from the spec: the helper `string_replace`, whose code is missing
from the sources, in the only form in which `SP2NBSP` calls it: every occurrence
of the one-character string `find` is replaced by the one-character string
`replace`, following the comment of `SP2NBSP` (turn spaces into non-breaking
spaces). -/
def string_replace (s : List Char) (find replace : Char) : List Char :=
  s.map (fun c => if c = find then replace else c)

/-- The while loop of `SP2NBSP` (ExternalArchiveFormat.cpp, lines 47 to 50), with
the number of turns still allowed and the current values of `i` and `strText`.
`none` means that the allowed turns were used up. -/
def SP2NBSPLoop (nWidth : Nat) : Nat → Nat → List Char → Option (List Char)
  | 0, _, _ => none
  | turns + 1, i, strText =>
    if i > nWidth then
      SP2NBSPLoop nWidth turns (i - nWidth) (string_insert strText (i - nWidth) '\n')
    else some strText

/-- `SP2NBSP` (ExternalArchiveFormat.cpp, lines 40 to 53). `String::size_type` is
an unsigned type of `sizeBits` bits, in which the sum `length + nWidth - 1` is
reduced; the loop is allowed one turn more than the start value of `i`. -/
def SP2NBSP (sizeBits : Nat) (pszText : List Char) (nWidth : Nat) : Option (List Char) :=
  let strText := string_replace pszText ' ' '\xA0'
  if nWidth ≠ 0 then
    let i := (strText.length + nWidth - 1) % 2 ^ sizeBits / nWidth * nWidth
    SP2NBSPLoop nWidth (i + 1) i strText
  else some strText

/-- The text `s` with a line feed inserted at each of the original offsets W,
2W, ..., jW, as the description of `SP2NBSP` has it: the first j chunks of W
characters of `s`, each followed by a line feed, and then the rest of `s`. -/
def withLineBreaks (s : List Char) (W j : Nat) : List Char :=
  (List.range j).flatMap (fun k => (s.drop (k * W)).take W ++ ['\n']) ++ s.drop (j * W)

/-- A text of seven characters, two of them spaces. -/
def sampleText : List Char := ['a', ' ', 'b', 'c', ' ', 'd', 'e']

/-- The number of lines that a text of L characters fills at W characters per
line: L / W rounded up. -/
def lineCount (L W : Nat) : Nat := (L + W - 1) / W

/-! # Verified properties -/

namespace CompareStats

open RESULT

/-! ## The classifier -/

/-- C1. An item whose comparison failed is classified DIFFIMG_ERROR whatever its
other flags are; an item that did not fail but was aborted is classified
DIFFIMG_ABORT whatever its remaining flags are. -/
theorem GetColImage_error_abort (di : DIFFITEM) :
    (di.isResultError = true → GetColImage di = DIFFIMG_ERROR) ∧
    (di.isResultError = false → di.isResultAbort = true →
      GetColImage di = DIFFIMG_ABORT) := by
  constructor
  · intro he
    simp [GetColImage, he]
  · intro he ha
    simp [GetColImage, he, ha]

/-- Witness of C1 at a failed filtered directory and at an aborted one. -/
theorem GetColImage_error_abort_witness :
    GetColImage sampleErrorItem = DIFFIMG_ERROR ∧
    GetColImage sampleAbortItem = DIFFIMG_ABORT :=
  ⟨(GetColImage_error_abort sampleErrorItem).1 rfl,
   (GetColImage_error_abort sampleAbortItem).2 rfl rfl⟩

/-- C2. A filtered item that is neither failed nor aborted is classified
DIFFIMG_DIRSKIP when it is a directory and DIFFIMG_SKIP otherwise, whatever its
side, same, diff, text and binary flags are. -/
theorem GetColImage_filtered (di : DIFFITEM)
    (he : di.isResultError = false) (ha : di.isResultAbort = false)
    (hf : di.isResultFiltered = true) :
    GetColImage di = if di.isDirectory then DIFFIMG_DIRSKIP else DIFFIMG_SKIP := by
  simp [GetColImage, he, ha, hf]

/-- Witness of C2 at a filtered text file flagged different. -/
theorem GetColImage_filtered_witness :
    GetColImage sampleFilteredFile =
      if sampleFilteredFile.isDirectory then DIFFIMG_DIRSKIP else DIFFIMG_SKIP :=
  GetColImage_filtered sampleFilteredFile rfl rfl rfl

/-- C3, as stated, fails: a filtered directory whose recorded outcome is an
error is classified DIFFIMG_ERROR, and an aborted one DIFFIMG_ABORT, neither of
which is DIFFIMG_DIRSKIP. -/
theorem GetColImage_filtered_dir_counterexample :
    (sampleErrorItem.isResultFiltered = true ∧ sampleErrorItem.isDirectory = true ∧
      GetColImage sampleErrorItem = DIFFIMG_ERROR ∧
      GetColImage sampleErrorItem ≠ DIFFIMG_DIRSKIP) ∧
    (sampleAbortItem.isResultFiltered = true ∧ sampleAbortItem.isDirectory = true ∧
      GetColImage sampleAbortItem = DIFFIMG_ABORT ∧
      GetColImage sampleAbortItem ≠ DIFFIMG_DIRSKIP) := by
  decide

/-- C3, amended. A filtered directory is classified DIFFIMG_ERROR when its
comparison failed, else DIFFIMG_ABORT when it was aborted, and DIFFIMG_DIRSKIP in
every other case, whatever its side, same, diff, text and binary flags are. -/
theorem GetColImage_filtered_dir (di : DIFFITEM)
    (hf : di.isResultFiltered = true) (hd : di.isDirectory = true) :
    GetColImage di =
      if di.isResultError then DIFFIMG_ERROR
      else if di.isResultAbort then DIFFIMG_ABORT
      else DIFFIMG_DIRSKIP := by
  simp [GetColImage, hf, hd]

/-- Witness of the amended C3 at a filtered directory flagged identical. -/
theorem GetColImage_filtered_dir_witness :
    GetColImage sampleFilteredDir = DIFFIMG_DIRSKIP :=
  GetColImage_filtered_dir sampleFilteredDir rfl rfl

/-- C4. An item that is neither failed, aborted nor filtered and exists on the
left side only is classified DIFFIMG_LDIRUNIQUE when it is a directory and
DIFFIMG_LUNIQUE otherwise; one that is not left-only but right-only is classified
DIFFIMG_RDIRUNIQUE or DIFFIMG_RUNIQUE in the same way; the same, diff, text and
binary flags play no part. -/
theorem GetColImage_unique (di : DIFFITEM)
    (he : di.isResultError = false) (ha : di.isResultAbort = false)
    (hf : di.isResultFiltered = false) :
    (di.isSideLeftOnly = true →
      GetColImage di =
        if di.isDirectory then DIFFIMG_LDIRUNIQUE else DIFFIMG_LUNIQUE) ∧
    (di.isSideLeftOnly = false → di.isSideRightOnly = true →
      GetColImage di =
        if di.isDirectory then DIFFIMG_RDIRUNIQUE else DIFFIMG_RUNIQUE) := by
  constructor
  · intro hl
    simp [GetColImage, he, ha, hf, hl]
  · intro hl hr
    simp [GetColImage, he, ha, hf, hl, hr]

/-- Witness of C4 at a left-only file and at a right-only directory. -/
theorem GetColImage_unique_witness :
    GetColImage sampleLeftOnlyFile = DIFFIMG_LUNIQUE ∧
    GetColImage sampleRightOnlyDir = DIFFIMG_RDIRUNIQUE :=
  ⟨(GetColImage_unique sampleLeftOnlyFile rfl rfl rfl).1 rfl,
   (GetColImage_unique sampleRightOnlyDir rfl rfl rfl).2 rfl rfl⟩

/-- C5. An item flagged identical, with none of the failed, aborted, filtered,
left-only and right-only flags set, is classified DIFFIMG_DIRSAME when it is a
directory, else DIFFIMG_TEXTSAME when it is text, else DIFFIMG_BINSAME when it is
binary, else DIFFIMG_SAME; in particular a file flagged both text and binary is
DIFFIMG_TEXTSAME. -/
theorem GetColImage_same (di : DIFFITEM)
    (he : di.isResultError = false) (ha : di.isResultAbort = false)
    (hf : di.isResultFiltered = false) (hl : di.isSideLeftOnly = false)
    (hr : di.isSideRightOnly = false) (hs : di.isResultSame = true) :
    GetColImage di =
        (if di.isDirectory then DIFFIMG_DIRSAME
         else if di.isText then DIFFIMG_TEXTSAME
         else if di.isBin then DIFFIMG_BINSAME
         else DIFFIMG_SAME) ∧
    (di.isDirectory = false → di.isText = true → di.isBin = true →
      GetColImage di = DIFFIMG_TEXTSAME) := by
  constructor
  · simp [GetColImage, he, ha, hf, hl, hr, hs]
  · intro hd ht _
    simp [GetColImage, he, ha, hf, hl, hr, hs, hd, ht]

/-- Witness of C5 at an identical file flagged both text and binary. -/
theorem GetColImage_same_witness :
    GetColImage sampleSameTextBin = DIFFIMG_TEXTSAME :=
  (GetColImage_same sampleSameTextBin rfl rfl rfl rfl rfl rfl).2 rfl rfl rfl

/-- C6. An item flagged different and not identical, with none of the failed,
aborted, filtered, left-only and right-only flags set, is classified
DIFFIMG_DIRDIFF when it is a directory, else DIFFIMG_TEXTDIFF when it is text,
else DIFFIMG_BINDIFF when it is binary, else DIFFIMG_DIFF. -/
theorem GetColImage_diff (di : DIFFITEM)
    (he : di.isResultError = false) (ha : di.isResultAbort = false)
    (hf : di.isResultFiltered = false) (hl : di.isSideLeftOnly = false)
    (hr : di.isSideRightOnly = false) (hs : di.isResultSame = false)
    (hd : di.isResultDiff = true) :
    GetColImage di =
      if di.isDirectory then DIFFIMG_DIRDIFF
      else if di.isText then DIFFIMG_TEXTDIFF
      else if di.isBin then DIFFIMG_BINDIFF
      else DIFFIMG_DIFF := by
  simp [GetColImage, he, ha, hf, hl, hr, hs, hd]

/-- Witness of C6 at a different file flagged binary. -/
theorem GetColImage_diff_witness :
    GetColImage sampleDiffBin =
      if sampleDiffBin.isDirectory then DIFFIMG_DIRDIFF
      else if sampleDiffBin.isText then DIFFIMG_TEXTDIFF
      else if sampleDiffBin.isBin then DIFFIMG_BINDIFF
      else DIFFIMG_DIFF :=
  GetColImage_diff sampleDiffBin rfl rfl rfl rfl rfl rfl rfl

/-- C7. An item with none of the failed, aborted, filtered, left-only,
right-only, same and diff flags set is classified DIFFIMG_DIR when it is a
directory and DIFFIMG_ABORT otherwise; and DIFFIMG_DIR is the category of no item
but the directories with none of these seven flags set. -/
theorem GetColImage_fallback (di : DIFFITEM) :
    (di.isResultError = false → di.isResultAbort = false →
      di.isResultFiltered = false → di.isSideLeftOnly = false →
      di.isSideRightOnly = false → di.isResultSame = false →
      di.isResultDiff = false →
      GetColImage di = if di.isDirectory then DIFFIMG_DIR else DIFFIMG_ABORT) ∧
    (GetColImage di = DIFFIMG_DIR →
      di.isResultError = false ∧ di.isResultAbort = false ∧
      di.isResultFiltered = false ∧ di.isSideLeftOnly = false ∧
      di.isSideRightOnly = false ∧ di.isResultSame = false ∧
      di.isResultDiff = false ∧ di.isDirectory = true) := by
  constructor
  · intro he ha hf hl hr hs hd
    simp [GetColImage, he, ha, hf, hl, hr, hs, hd]
  · obtain ⟨e, a, f, l, r, s, d, dir, t, b⟩ := di
    cases e <;> cases a <;> cases f <;> cases l <;> cases r <;> cases s <;>
      cases d <;> cases dir <;> cases t <;> cases b <;> simp [GetColImage]

/-- Witness of C7 at a file and at a directory that were not compared yet. -/
theorem GetColImage_fallback_witness :
    GetColImage sampleUncomparedFile = DIFFIMG_ABORT ∧
    GetColImage sampleUncomparedDir = DIFFIMG_DIR ∧
    sampleUncomparedDir.isDirectory = true :=
  ⟨(GetColImage_fallback sampleUncomparedFile).1 rfl rfl rfl rfl rfl rfl rfl,
   (GetColImage_fallback sampleUncomparedDir).1 rfl rfl rfl rfl rfl rfl rfl,
   ((GetColImage_fallback sampleUncomparedDir).2
      ((GetColImage_fallback sampleUncomparedDir).1 rfl rfl rfl rfl rfl rfl rfl)).2.2.2.2.2.2.2⟩

/-- C8. A filtered directory is never classified into a Same category, also
when it is flagged identical; a left-only item is never classified into a Diff
category, also when it is flagged different. -/
theorem GetColImage_precedence (di : DIFFITEM) :
    (di.isResultFiltered = true → di.isDirectory = true →
      GetColImage di ≠ DIFFIMG_DIRSAME ∧ GetColImage di ≠ DIFFIMG_TEXTSAME ∧
      GetColImage di ≠ DIFFIMG_BINSAME ∧ GetColImage di ≠ DIFFIMG_SAME) ∧
    (di.isSideLeftOnly = true →
      GetColImage di ≠ DIFFIMG_DIRDIFF ∧ GetColImage di ≠ DIFFIMG_TEXTDIFF ∧
      GetColImage di ≠ DIFFIMG_BINDIFF ∧ GetColImage di ≠ DIFFIMG_DIFF) := by
  obtain ⟨e, a, f, l, r, s, d, dir, t, b⟩ := di
  cases e <;> cases a <;> cases f <;> cases l <;> cases r <;> cases s <;>
    cases d <;> cases dir <;> cases t <;> cases b <;> simp [GetColImage]

/-- Witness of C8 at a filtered directory flagged identical and at a left-only
file flagged different. -/
theorem GetColImage_precedence_witness :
    (GetColImage sampleFilteredDir ≠ DIFFIMG_DIRSAME ∧
      GetColImage sampleFilteredDir ≠ DIFFIMG_TEXTSAME ∧
      GetColImage sampleFilteredDir ≠ DIFFIMG_BINSAME ∧
      GetColImage sampleFilteredDir ≠ DIFFIMG_SAME) ∧
    (GetColImage sampleLeftOnlyFile ≠ DIFFIMG_DIRDIFF ∧
      GetColImage sampleLeftOnlyFile ≠ DIFFIMG_TEXTDIFF ∧
      GetColImage sampleLeftOnlyFile ≠ DIFFIMG_BINDIFF ∧
      GetColImage sampleLeftOnlyFile ≠ DIFFIMG_DIFF) :=
  ⟨(GetColImage_precedence sampleFilteredDir).1 rfl rfl,
   (GetColImage_precedence sampleLeftOnlyFile).2 rfl⟩

/-! ## The counter table -/

/-- An increment below LONG_MAX does not wrap. -/
theorem InterlockedIncrement_of_lt (x : Int) (hlo : LONG_MIN ≤ x) (hhi : x < LONG_MAX) :
    InterlockedIncrement x = x + 1 := by
  unfold InterlockedIncrement wrapLONG
  unfold LONG_MIN at hlo
  unfold LONG_MAX at hhi
  have h : (x + 1 + 2147483648) % 4294967296 = x + 1 + 2147483648 :=
    Int.emod_eq_of_lt (by omega) (by omega)
  omega

/-- C9. After Reset, whatever the state was before, GetCount returns 0 for every
result category; the same holds for a freshly constructed object, whatever the
memory it is built in contained. -/
theorem Reset_GetCount (s : CompareStats) (c : RESULT) :
    GetCount (Reset s) c = 0 ∧ GetCount (Constructor s) c = 0 :=
  ⟨rfl, rfl⟩

/-- C10, as stated, fails: in the state reached by LONG_MAX calls of AddItem
with a binary file that differs, one more such call takes both the counter of
DIFFIMG_BINDIFF and the compared count from LONG_MAX to LONG_MIN, so neither
grows by one. -/
theorem AddItem_counterexample :
    Valid sampleSaturated ∧
    GetColImage sampleDiffBin = DIFFIMG_BINDIFF ∧
    GetCount sampleSaturated DIFFIMG_BINDIFF = 2147483647 ∧
    GetCount (AddItem sampleSaturated sampleDiffBin) DIFFIMG_BINDIFF = -2147483648 ∧
    GetCount (AddItem sampleSaturated sampleDiffBin) (GetColImage sampleDiffBin) ≠
      GetCount sampleSaturated (GetColImage sampleDiffBin) + 1 ∧
    (AddItem sampleSaturated sampleDiffBin).m_nComparedItems ≠
      sampleSaturated.m_nComparedItems + 1 := by
  decide

/-- C10, amended. In every state and for every item, AddItem leaves the counter
of every category other than the item's and the total unchanged; it increases
the counter of the item's category by exactly 1 when that counter is below
LONG_MAX, and the compared count by exactly 1 when that count is below
LONG_MAX. -/
theorem AddItem_effect (s : CompareStats) (di : DIFFITEM) (hv : Valid s) :
    (GetCount s (GetColImage di) < LONG_MAX →
      GetCount (AddItem s di) (GetColImage di) = GetCount s (GetColImage di) + 1) ∧
    (s.m_nComparedItems < LONG_MAX →
      (AddItem s di).m_nComparedItems = s.m_nComparedItems + 1) ∧
    (∀ c : RESULT, c ≠ GetColImage di → GetCount (AddItem s di) c = GetCount s c) ∧
    (AddItem s di).m_nTotalItems = s.m_nTotalItems := by
  obtain ⟨hc, _, hn⟩ := hv
  refine ⟨?_, ?_, ?_, rfl⟩
  · intro h
    simp only [GetCount, AddItem, Function.update_same]
    exact InterlockedIncrement_of_lt _ (hc _).1 h
  · intro h
    exact InterlockedIncrement_of_lt _ hn.1 h
  · intro c hne
    simp only [GetCount, AddItem]
    exact Function.update_noteq hne _ _

/-- Witness of the amended C10 at a run in progress and a binary file that
differs. -/
theorem AddItem_effect_witness :
    Valid sampleRunning ∧
    GetCount (AddItem sampleRunning sampleDiffBin) (GetColImage sampleDiffBin) =
      GetCount sampleRunning (GetColImage sampleDiffBin) + 1 ∧
    (AddItem sampleRunning sampleDiffBin).m_nComparedItems =
      sampleRunning.m_nComparedItems + 1 :=
  ⟨by decide, (AddItem_effect sampleRunning sampleDiffBin (by decide)).1 (by decide),
    (AddItem_effect sampleRunning sampleDiffBin (by decide)).2.1 (by decide)⟩

/-- The sum of the counters grows by one with every call that does not wrap the
counter it steps. -/
theorem sumCounts_AddItem (s : CompareStats) (di : DIFFITEM)
    (hlo : LONG_MIN ≤ s.m_counts (GetColImage di))
    (hhi : s.m_counts (GetColImage di) < LONG_MAX) :
    sumCounts (AddItem s di) = sumCounts s + 1 := by
  unfold sumCounts
  have hmem : GetColImage di ∈ (Finset.univ : Finset RESULT) := Finset.mem_univ _
  have h1 : ∑ c : RESULT, GetCount (AddItem s di) c =
      InterlockedIncrement (s.m_counts (GetColImage di)) +
        ∑ c ∈ Finset.univ \ {GetColImage di}, s.m_counts c := by
    simp only [GetCount, AddItem]
    exact Finset.sum_update_of_mem hmem _ _
  have h2 : ∑ c : RESULT, GetCount s c =
      s.m_counts (GetColImage di) + ∑ c ∈ Finset.univ \ {GetColImage di}, s.m_counts c := by
    simp only [GetCount]
    exact Finset.sum_eq_add_sum_diff_singleton hmem _
  rw [h1, h2, InterlockedIncrement_of_lt _ hlo hhi]
  ring

/-- A counter that is not negative is bounded by the sum of all counters when
none of them is negative. -/
theorem GetCount_le_sumCounts (s : CompareStats) (hpos : ∀ c : RESULT, 0 ≤ s.m_counts c)
    (r : RESULT) : s.m_counts r ≤ sumCounts s := by
  unfold sumCounts
  simp only [GetCount]
  exact Finset.single_le_sum (fun c _ => hpos c) (Finset.mem_univ r)

/-- One call of AddItem keeps the accounting exact as long as the compared
count is below LONG_MAX. -/
theorem AddItem_accounting (s : CompareStats) (di : DIFFITEM) (k : Int)
    (hpos : ∀ c : RESULT, 0 ≤ s.m_counts c) (hsum : sumCounts s = k)
    (hcmp : s.m_nComparedItems = k) (hk : k < LONG_MAX) :
    (∀ c : RESULT, 0 ≤ (AddItem s di).m_counts c) ∧ sumCounts (AddItem s di) = k + 1 ∧
    (AddItem s di).m_nComparedItems = k + 1 ∧
    (AddItem s di).m_nTotalItems = s.m_nTotalItems := by
  have hle : s.m_counts (GetColImage di) ≤ k := hsum ▸ GetCount_le_sumCounts s hpos _
  have hlo : LONG_MIN ≤ s.m_counts (GetColImage di) := by
    have := hpos (GetColImage di)
    unfold LONG_MIN
    omega
  have hhi : s.m_counts (GetColImage di) < LONG_MAX := lt_of_le_of_lt hle hk
  have hk0 : 0 ≤ k := le_trans (hpos (GetColImage di)) hle
  refine ⟨?_, ?_, ?_, rfl⟩
  · intro c
    by_cases hc : c = GetColImage di
    · subst hc
      simp only [AddItem, Function.update_same]
      rw [InterlockedIncrement_of_lt _ hlo hhi]
      have := hpos (GetColImage di)
      omega
    · simp only [AddItem]
      rw [Function.update_noteq hc]
      exact hpos c
  · rw [sumCounts_AddItem s di hlo hhi, hsum]
  · show InterlockedIncrement s.m_nComparedItems = k + 1
    rw [hcmp]
    exact InterlockedIncrement_of_lt k (by unfold LONG_MIN; omega) hk

/-- A sequence of AddItem calls keeps the accounting exact as long as the
compared count stays within LONG_MAX. -/
theorem AddItems_accounting (items : List DIFFITEM) :
    ∀ (s : CompareStats) (k : Int), (∀ c : RESULT, 0 ≤ s.m_counts c) → sumCounts s = k →
      s.m_nComparedItems = k → k + items.length ≤ LONG_MAX →
      (∀ c : RESULT, 0 ≤ (AddItems s items).m_counts c) ∧
      sumCounts (AddItems s items) = k + items.length ∧
      (AddItems s items).m_nComparedItems = k + items.length ∧
      (AddItems s items).m_nTotalItems = s.m_nTotalItems := by
  induction items with
  | nil =>
    intro s k hpos hsum hcmp _
    simp [AddItems, hpos, hsum, hcmp]
  | cons di rest ih =>
    intro s k hpos hsum hcmp hk
    have hlen : ((di :: rest).length : Int) = (rest.length : Int) + 1 := by
      simp
    rw [hlen] at hk
    obtain ⟨h1, h2, h3, h4⟩ := AddItem_accounting s di k hpos hsum hcmp (by omega)
    obtain ⟨g1, g2, g3, g4⟩ := ih (AddItem s di) (k + 1) h1 h2 h3 (by omega)
    have hstep : AddItems s (di :: rest) = AddItems (AddItem s di) rest := rfl
    rw [hstep, hlen]
    refine ⟨g1, ?_, ?_, ?_⟩
    · rw [g2]; ring
    · rw [g3]; ring
    · rw [g4, h4]

/-- The state before any call satisfies the accounting with count zero. -/
theorem sumCounts_SetTotal_Reset (s0 : CompareStats) (n : Int) :
    sumCounts (SetTotal (Reset s0) n) = 0 := by
  simp [sumCounts, GetCount, SetTotal, Reset]

/-- Calls of AddItem with one and the same item leave the counters of the other
categories alone. -/
theorem AddItems_replicate_other (di : DIFFITEM) (c : RESULT) (hc : c ≠ GetColImage di)
    (n : Nat) : ∀ s : CompareStats,
      (AddItems s (List.replicate n di)).m_counts c = s.m_counts c := by
  induction n with
  | zero => intro s; rfl
  | succ n ih =>
    intro s
    have hstep : AddItems s (List.replicate (n + 1) di) =
        AddItems (AddItem s di) (List.replicate n di) := rfl
    rw [hstep, ih (AddItem s di)]
    simp only [AddItem]
    exact Function.update_noteq hc _ _

/-- A sequence of calls followed by one more call. -/
theorem AddItems_append_singleton (s : CompareStats) (items : List DIFFITEM) (di : DIFFITEM) :
    AddItems s (items ++ [di]) = AddItem (AddItems s items) di := by
  simp [AddItems, List.foldl_append]

/-- C11, as stated, fails in its general part: after Reset, LONG_MAX calls of
AddItem with a binary file that differs and one call with a file that was never
compared, the counters add up to 2147483648 while the compared count has wrapped
to LONG_MIN. -/
theorem AddItems_sum_counterexample :
    sumCounts (AddItems (Reset sampleRunning) sampleLongRun) = 2147483648 ∧
    (AddItems (Reset sampleRunning) sampleLongRun).m_nComparedItems = -2147483648 ∧
    sumCounts (AddItems (Reset sampleRunning) sampleLongRun) ≠
      (AddItems (Reset sampleRunning) sampleLongRun).m_nComparedItems := by
  have hacc := AddItems_accounting (List.replicate 2147483647 sampleDiffBin)
    (Reset sampleRunning) 0 (fun _ => le_refl _) (sumCounts_SetTotal_Reset sampleRunning 0) rfl
    (by rw [List.length_replicate]; decide)
  rw [List.length_replicate] at hacc
  obtain ⟨_, hsum, hcmp, _⟩ := hacc
  have hother : (AddItems (Reset sampleRunning)
      (List.replicate 2147483647 sampleDiffBin)).m_counts (GetColImage sampleUncomparedFile)
        = 0 :=
    AddItems_replicate_other sampleDiffBin _ (by decide) 2147483647 (Reset sampleRunning)
  have hs : sumCounts (AddItems (Reset sampleRunning) sampleLongRun) = 2147483648 := by
    unfold sampleLongRun
    rw [AddItems_append_singleton,
      sumCounts_AddItem _ _ (by rw [hother]; decide) (by rw [hother]; decide), hsum]
    decide
  have hc : (AddItems (Reset sampleRunning) sampleLongRun).m_nComparedItems = -2147483648 := by
    unfold sampleLongRun
    rw [AddItems_append_singleton]
    show InterlockedIncrement _ = _
    rw [hcmp]
    decide
  refine ⟨hs, hc, ?_⟩
  rw [hs, hc]
  decide

/-- C11, amended. Starting from a Reset object, after SetTotal(N) followed by
any sequence of N calls of AddItem, N being a LONG value, the compared count is N
and the counters of all categories add up to N; and in every state reached from
Reset by at most LONG_MAX calls of AddItem the counters add up to the compared
count. -/
theorem AddItems_sum (s0 : CompareStats) (N : Nat) (items : List DIFFITEM)
    (hN : (N : Int) ≤ LONG_MAX) (hlen : items.length ≤ N) :
    (items.length = N →
      (AddItems (SetTotal (Reset s0) N) items).m_nComparedItems = N ∧
      sumCounts (AddItems (SetTotal (Reset s0) N) items) = N) ∧
    sumCounts (AddItems (Reset s0) items) = (AddItems (Reset s0) items).m_nComparedItems := by
  have hl : (0 : Int) + (items.length : Int) ≤ LONG_MAX := by
    have : (items.length : Int) ≤ (N : Int) := by exact_mod_cast hlen
    omega
  constructor
  · intro hEq
    obtain ⟨_, hsum, hcmp, _⟩ := AddItems_accounting items (SetTotal (Reset s0) N) 0
      (fun _ => le_refl _) (sumCounts_SetTotal_Reset s0 N) rfl hl
    rw [hsum, hcmp, hEq]
    simp
  · obtain ⟨_, hsum, hcmp, _⟩ := AddItems_accounting items (Reset s0) 0
      (fun _ => le_refl _) (sumCounts_SetTotal_Reset s0 0) rfl hl
    rw [hsum, hcmp]

/-- Witness of the amended C11 at a run of three items. -/
theorem AddItems_sum_witness :
    ((AddItems (SetTotal (Reset sampleRunning) 3) sampleShortRun).m_nComparedItems = 3 ∧
      sumCounts (AddItems (SetTotal (Reset sampleRunning) 3) sampleShortRun) = 3) ∧
    sumCounts (AddItems (Reset sampleRunning) sampleShortRun) =
      (AddItems (Reset sampleRunning) sampleShortRun).m_nComparedItems :=
  ⟨(AddItems_sum sampleRunning 3 sampleShortRun (by decide) (by decide)).1 rfl,
   (AddItems_sum sampleRunning 3 sampleShortRun (by decide) (by decide)).2⟩

/-- C12. In every state reached from a Reset object by SetTotal(N), N being a
LONG value, followed by at most N calls of AddItem, the compared count does not
exceed the total, and the assertion that closes each of these calls holds; more
generally the assertion holds after every call that is entered with the compared
count below the total. -/
theorem AddItems_compared_le_total (s0 : CompareStats) (N : Nat) (items : List DIFFITEM)
    (hN : (N : Int) ≤ LONG_MAX) (hlen : items.length ≤ N) :
    (AddItems (SetTotal (Reset s0) N) items).m_nComparedItems ≤
      (AddItems (SetTotal (Reset s0) N) items).m_nTotalItems ∧
    (∀ (before : List DIFFITEM) (di : DIFFITEM) (after : List DIFFITEM),
      items = before ++ di :: after →
      AddItemAssertion (AddItems (SetTotal (Reset s0) N) before) di = true) ∧
    (∀ (s : CompareStats) (di : DIFFITEM), Valid s →
      s.m_nComparedItems < s.m_nTotalItems → AddItemAssertion s di = true) := by
  have hcast : (items.length : Int) ≤ (N : Int) := by exact_mod_cast hlen
  refine ⟨?_, ?_, ?_⟩
  · obtain ⟨_, _, hcmp, htot⟩ := AddItems_accounting items (SetTotal (Reset s0) N) 0
      (fun _ => le_refl _) (sumCounts_SetTotal_Reset s0 N) rfl (by omega)
    rw [hcmp, htot]
    show (0 : Int) + (items.length : Int) ≤ (N : Int)
    omega
  · intro before di after hsplit
    have hb : (before.length : Int) + 1 ≤ (items.length : Int) := by
      have : before.length + 1 ≤ items.length := by
        rw [hsplit, List.length_append, List.length_cons]
        omega
      exact_mod_cast this
    obtain ⟨hpos, hsum, hcmp, htot⟩ := AddItems_accounting before (SetTotal (Reset s0) N) 0
      (fun _ => le_refl _) (sumCounts_SetTotal_Reset s0 N) rfl (by omega)
    obtain ⟨_, _, hcmp2, htot2⟩ := AddItem_accounting _ di _ hpos hsum hcmp (by omega)
    unfold AddItemAssertion
    rw [decide_eq_true_eq, hcmp2, htot2, htot]
    show (0 : Int) + (before.length : Int) + 1 ≤ (N : Int)
    omega
  · intro s di hv hlt
    obtain ⟨_, htot, hcmp⟩ := hv
    have hmax : s.m_nTotalItems ≤ LONG_MAX := htot.2
    unfold AddItemAssertion
    rw [decide_eq_true_eq]
    show InterlockedIncrement s.m_nComparedItems ≤ s.m_nTotalItems
    rw [InterlockedIncrement_of_lt _ hcmp.1 (lt_of_lt_of_le hlt hmax)]
    omega

/-- Witness of C12 at a run of three items out of five announced ones, and at
one more call in a run in progress. -/
theorem AddItems_compared_le_total_witness :
    (AddItems (SetTotal (Reset sampleRunning) 5) sampleShortRun).m_nComparedItems ≤
      (AddItems (SetTotal (Reset sampleRunning) 5) sampleShortRun).m_nTotalItems ∧
    AddItemAssertion (AddItems (SetTotal (Reset sampleRunning) 5) [sampleDiffBin])
      sampleUncomparedFile = true ∧
    AddItemAssertion sampleRunning sampleErrorItem = true :=
  ⟨(AddItems_compared_le_total sampleRunning 5 sampleShortRun (by decide) (by decide)).1,
   (AddItems_compared_le_total sampleRunning 5 sampleShortRun (by decide) (by decide)).2.1
      [sampleDiffBin] sampleUncomparedFile [sampleErrorItem] rfl,
   (AddItems_compared_le_total sampleRunning 5 sampleShortRun (by decide) (by decide)).2.2
      sampleRunning sampleErrorItem (by decide) (by decide)⟩

/-! ## Concurrent workers -/

/-- One call of AddItem is the run of its two steps. -/
theorem runSchedule_stepsOf (s : CompareStats) (di : DIFFITEM) :
    runSchedule s (stepsOf di) = AddItem s di := rfl

/-- The calls taken one after another are the run of their steps, call by
call. -/
theorem runSchedule_flatten (items : List DIFFITEM) :
    ∀ s : CompareStats, runSchedule s (items.map stepsOf).flatten = AddItems s items := by
  induction items with
  | nil => intro s; rfl
  | cons di rest ih =>
    intro s
    have h : runSchedule s ((di :: rest).map stepsOf).flatten =
        runSchedule (runSchedule s (stepsOf di)) (rest.map stepsOf).flatten := by
      simp [runSchedule, List.foldl_append]
    rw [h, ih, runSchedule_stepsOf]
    rfl

/-- Two steps give the same state in either order. -/
theorem applyStep_comm (s : CompareStats) (x y : Step) :
    applyStep (applyStep s x) y = applyStep (applyStep s y) x := by
  cases x with
  | incrementCount rx =>
    cases y with
    | incrementCount ry =>
      by_cases h : rx = ry
      · subst h; rfl
      · simp only [applyStep]
        congr 1
        funext c
        by_cases hx : c = rx
        · subst hx
          simp [Function.update, h]
        · by_cases hy : c = ry
          · subst hy
            simp [Function.update, Ne.symm h]
          · simp [Function.update, hx, hy]
    | incrementCompared => rfl
  | incrementCompared =>
    cases y with
    | incrementCount ry => rfl
    | incrementCompared => rfl

/-- A schedule is a rearrangement of the steps of all workers. -/
theorem Interleaving.perm {threads : List (List Step)} {sched : List Step}
    (h : Interleaving threads sched) : sched.Perm threads.flatten := by
  induction h with
  | done threads hnil =>
    have : threads.flatten = [] := by
      rw [List.flatten_eq_nil_iff]
      exact hnil
    rw [this]
  | step before after x rest sched _ ih =>
    have h1 : (before ++ (x :: rest) :: after).flatten =
        before.flatten ++ x :: (rest ++ after.flatten) := by
      simp
    have h2 : (before ++ rest :: after).flatten = before.flatten ++ (rest ++ after.flatten) := by
      simp
    rw [h1]
    rw [h2] at ih
    exact (List.Perm.cons x ih).trans List.perm_middle.symm

/-- C13. With the two InterlockedIncrement calls of AddItem taken as indivisible
steps, every interleaving of the steps of N concurrently running AddItem calls
ends in the state that the same N calls give when they are taken one after
another: no increment of a category counter or of the compared count is lost. -/
theorem AddItem_concurrent (s : CompareStats) (items : List DIFFITEM) (sched : List Step)
    (h : Interleaving (items.map stepsOf) sched) :
    runSchedule s sched = AddItems s items := by
  rw [← runSchedule_flatten items s]
  exact List.Perm.foldl_eq' h.perm (fun x _ y _ z => applyStep_comm z x y) s

/-- Witness of C13 at two workers whose steps are interleaved: the schedule is
none of the two sequential ones. -/
theorem AddItem_concurrent_witness :
    Interleaving (sampleWorkers.map stepsOf) sampleSchedule ∧
    sampleSchedule ≠ (sampleWorkers.map stepsOf).flatten ∧
    sampleSchedule ≠ (sampleWorkers.reverse.map stepsOf).flatten ∧
    runSchedule sampleRunning sampleSchedule = AddItems sampleRunning sampleWorkers :=
  have hsched : Interleaving (sampleWorkers.map stepsOf) sampleSchedule :=
    Interleaving.step [] [[Step.incrementCount DIFFIMG_ABORT, Step.incrementCompared]]
      (Step.incrementCount DIFFIMG_BINDIFF) [Step.incrementCompared] _
      (Interleaving.step [[Step.incrementCompared]] []
        (Step.incrementCount DIFFIMG_ABORT) [Step.incrementCompared] _
        (Interleaving.step [] [[Step.incrementCompared]] Step.incrementCompared [] _
          (Interleaving.step [[]] [] Step.incrementCompared [] _
            (Interleaving.done [[], []] (by decide)))))
  ⟨hsched, by decide, by decide, AddItem_concurrent sampleRunning sampleWorkers sampleSchedule hsched⟩

end CompareStats

/-! ## The byte comparator -/

namespace CompareEngines

open ByteCompare

/-- On two equal remainders without read failures the loop ends with Same as
soon as it is allowed more turns than the remainder has code units. -/
theorem compareLoop_same {CodePoint : Type} [DecidableEq CodePoint] (blockSize : Nat) :
    ∀ (turns k : Nat) (rest : List CodePoint), rest.length < turns →
      compareLoop blockSize none none turns k rest rest = some CompareOutcome.Same := by
  intro turns
  induction turns with
  | zero => intro k rest h; omega
  | succ turns ih =>
    intro k rest h
    by_cases hnil : rest.take blockSize = []
    · simp [compareLoop, hnil]
    · have hpos : 0 < blockSize ∧ rest ≠ [] := by
        rw [List.take_eq_nil_iff] at hnil
        push_neg at hnil
        exact ⟨Nat.pos_of_ne_zero hnil.1, hnil.2⟩
      have hlen : 0 < rest.length := List.length_pos.mpr hpos.2
      have hdrop : (rest.drop blockSize).length < turns := by
        rw [List.length_drop]
        omega
      simp [compareLoop, hnil, ih (k + 1) (rest.drop blockSize) hdrop]

/-- On two unequal remainders without read failures the loop ends with
Different as soon as it is allowed more turns than the left remainder has code
units, the block size being positive. -/
theorem compareLoop_different {CodePoint : Type} [DecidableEq CodePoint] (blockSize : Nat)
    (hB : 0 < blockSize) :
    ∀ (turns k : Nat) (left right : List CodePoint), left ≠ right → left.length < turns →
      compareLoop blockSize none none turns k left right = some CompareOutcome.Different := by
  intro turns
  induction turns with
  | zero => intro k left right _ h; omega
  | succ turns ih =>
    intro k left right hne h
    by_cases hblk : left.take blockSize = right.take blockSize
    · have hdropne : left.drop blockSize ≠ right.drop blockSize := by
        intro hd
        apply hne
        rw [← List.take_append_drop blockSize left, ← List.take_append_drop blockSize right,
          hblk, hd]
      have hnil : left.take blockSize ≠ [] := by
        intro hl
        have hr : right.take blockSize = [] := hblk ▸ hl
        rw [List.take_eq_nil_iff] at hl hr
        rcases hl with hl | hl
        · omega
        · rcases hr with hr | hr
          · omega
          · exact hne (hl.trans hr.symm)
      have hleft : left ≠ [] := by
        intro hl
        apply hnil
        rw [hl, List.take_nil]
      have hlen : 0 < left.length := List.length_pos.mpr hleft
      have hdrop : (left.drop blockSize).length < turns := by
        rw [List.length_drop]
        omega
      have hnil2 : right.take blockSize ≠ [] := hblk ▸ hnil
      simp [compareLoop, hblk, hnil2, ih (k + 1) _ _ hdropne hdrop]
    · simp [compareLoop, hblk]

/-- C14. For every pair of identical streams of code units, of any length and
also of length zero, that can be opened and read, CompareFiles returns Same,
whatever the block size and the type of the code units are, hence both at 8 bit
and at 16 bit width. -/
theorem CompareFiles_identical {CodePoint : Type} [DecidableEq CodePoint] (blockSize : Nat)
    (left right : FileSide CodePoint)
    (hlo : left.opens = true) (hro : right.opens = true)
    (hlr : left.failingRead = none) (hrr : right.failingRead = none)
    (hsame : left.content = right.content) :
    CompareFiles blockSize left right = some CompareOutcome.Same := by
  unfold CompareFiles
  rw [hlo, hro, hlr, hrr, ← hsame]
  simpa using compareLoop_same blockSize (left.content.length + 1) 0 left.content
    (Nat.lt_succ_self _)

/-- Witness of C14 at two empty files and at the text of the scenario of the
spec, at 8 bit and at 16 bit width. -/
theorem CompareFiles_identical_witness :
    CompareFiles 4 (readable ([] : List CodePoint8)) (readable []) =
      some CompareOutcome.Same ∧
    CompareFiles 4 (readable ([97, 13, 10, 98, 13, 10] : List CodePoint8))
      (readable [97, 13, 10, 98, 13, 10]) = some CompareOutcome.Same ∧
    CompareFiles 4 (readable ([97, 13, 10, 98, 13, 10] : List CodePoint16))
      (readable [97, 13, 10, 98, 13, 10]) = some CompareOutcome.Same :=
  ⟨CompareFiles_identical 4 _ _ rfl rfl rfl rfl rfl,
   CompareFiles_identical 4 _ _ rfl rfl rfl rfl rfl,
   CompareFiles_identical 4 _ _ rfl rfl rfl rfl rfl⟩

/-- C15. For every pair of streams of code units that can be opened and read and
that differ, be it in a code unit or because one is a proper prefix of the other,
CompareFiles returns Different, and so never Error, whatever the positive block
size and the type of the code units are. -/
theorem CompareFiles_different {CodePoint : Type} [DecidableEq CodePoint] (blockSize : Nat)
    (hB : 0 < blockSize) (left right : FileSide CodePoint)
    (hlo : left.opens = true) (hro : right.opens = true)
    (hlr : left.failingRead = none) (hrr : right.failingRead = none)
    (hdiff : left.content ≠ right.content) :
    CompareFiles blockSize left right = some CompareOutcome.Different ∧
    CompareFiles blockSize left right ≠ some CompareOutcome.Error := by
  have h : CompareFiles blockSize left right = some CompareOutcome.Different := by
    unfold CompareFiles
    rw [hlo, hro, hlr, hrr]
    simpa using compareLoop_different blockSize hB (left.content.length + 1) 0 left.content
      right.content hdiff (Nat.lt_succ_self _)
  rw [h]
  exact ⟨rfl, by decide⟩

/-- Witness of C15 at the scenario of the spec (one differing unit), at a proper
prefix on the left and at a proper prefix on the right. -/
theorem CompareFiles_different_witness :
    CompareFiles 2 (readable ([97, 10, 98] : List CodePoint8)) (readable [97, 10, 99]) =
      some CompareOutcome.Different ∧
    CompareFiles 2 (readable ([97, 10] : List CodePoint16)) (readable [97, 10, 98]) =
      some CompareOutcome.Different ∧
    CompareFiles 2 (readable ([97, 10, 98] : List CodePoint16)) (readable [97, 10]) =
      some CompareOutcome.Different :=
  ⟨(CompareFiles_different 2 (by decide) _ _ rfl rfl rfl rfl (by decide)).1,
   (CompareFiles_different 2 (by decide) _ _ rfl rfl rfl rfl (by decide)).1,
   (CompareFiles_different 2 (by decide) _ _ rfl rfl rfl rfl (by decide)).1⟩

end CompareEngines

/-! ## Common routines (coretools.cpp) -/

/-- What `find_first_of` returns when it finds a character. -/
theorem find_first_of_eq_some (s chars : List Char) (pos p : Nat) :
    find_first_of s chars pos = some p ↔
      chars.contains (s.getD p ' ') = true ∧ pos ≤ p ∧ p < s.length ∧
        ∀ j, pos ≤ j → j < p → chars.contains (s.getD j ' ') = false := by
  unfold find_first_of
  rw [List.find?_range'_eq_some]
  simp only [List.mem_range'_1, Bool.not_eq_true']
  constructor
  · rintro ⟨h1, ⟨h2, h3⟩, h4⟩
    exact ⟨h1, h2, by omega, fun j hj1 hj2 => by simpa using h4 j hj1 hj2⟩
  · rintro ⟨h1, h2, h3, h4⟩
    exact ⟨h1, ⟨h2, by omega⟩, fun j hj1 hj2 => by simpa using h4 j hj1 hj2⟩

/-- What it means that `find_first_of` returns `npos`. -/
theorem find_first_of_eq_none (s chars : List Char) (pos : Nat) :
    find_first_of s chars pos = none ↔
      ∀ j, pos ≤ j → j < s.length → chars.contains (s.getD j ' ') = false := by
  unfold find_first_of
  rw [List.find?_range'_eq_none]
  constructor
  · intro h j hj1 hj2
    simpa using h j hj1 (by omega)
  · intro h j hj1 hj2
    simpa using h j hj1 (by omega)

/-- The loop of `DecorateCmdLine` stops at the first switch character that
follows a space, when there is one and enough turns are allowed. -/
theorem DecorateCmdLineLoop_eq_some (t : List Char) (p : Nat) (hp : p < t.length)
    (hsw : switchChars.contains (t.getD p ' ') = true) (hsp : t.getD (p - 1) ' ' = ' ')
    (hmin : ∀ j, j < p → 1 ≤ j →
      ¬(switchChars.contains (t.getD j ' ') = true ∧ t.getD (j - 1) ' ' = ' ')) :
    ∀ (turns pos : Nat), pos < p → p - pos ≤ turns →
      DecorateCmdLineLoop t turns pos = some (some p) := by
  intro turns
  induction turns with
  | zero => intro pos h1 h2; omega
  | succ turns ih =>
    intro pos h1 h2
    unfold DecorateCmdLineLoop
    cases hf : find_first_of t switchChars (pos + 1) with
    | none =>
      rw [find_first_of_eq_none] at hf
      have := hf p (by omega) hp
      rw [hsw] at this
      exact absurd this (by decide)
    | some q =>
      rw [find_first_of_eq_some] at hf
      obtain ⟨hq1, hq2, hq3, hq4⟩ := hf
      have hqp : q ≤ p := by
        by_contra hcon
        have := hq4 p (by omega) (by omega)
        rw [hsw] at this
        exact absurd this (by decide)
      rcases Nat.lt_or_eq_of_le hqp with hlt | heq
      · have hne : t.getD (q - 1) ' ' ≠ ' ' := fun h => hmin q hlt (by omega) ⟨hq1, h⟩
        show (if t.getD (q - 1) ' ' ≠ ' ' then DecorateCmdLineLoop t turns q
          else some (some q)) = some (some p)
        rw [if_pos hne]
        exact ih q hlt (by omega)
      · subst heq
        show (if t.getD (q - 1) ' ' ≠ ' ' then DecorateCmdLineLoop t turns q
          else some (some q)) = some (some q)
        rw [if_neg (not_not.mpr hsp)]

/-- A trimmed string does not start with whitespace. -/
theorem string_trim_ws_head (isspace : Char → Bool) (s : List Char) (c : Char)
    (rest : List Char) (h : string_trim_ws isspace s = c :: rest) : isspace c = false := by
  unfold string_trim_ws at h
  have hpre : c :: rest <+: s.dropWhile isspace := h ▸ List.rdropWhile_prefix isspace _
  have hne : s.dropWhile isspace ≠ [] := by
    intro hnil
    rw [hnil] at hpre
    simp at hpre
  have hhead := List.head_dropWhile_not isspace s hne
  obtain ⟨tail, htail⟩ := hpre
  have : (s.dropWhile isspace).head hne = c := by
    simp [← htail]
  rw [this] at hhead
  exact hhead

/-- Trimming a nonempty beginning of a trimmed string only removes characters
at its end: the result is a beginning of the trimmed string. -/
theorem string_trim_ws_take_prefix (isspace : Char → Bool) (s : List Char) (p : Nat) :
    string_trim_ws isspace ((string_trim_ws isspace s).take p) <+:
      string_trim_ws isspace s := by
  cases ht : string_trim_ws isspace s with
  | nil => simp [string_trim_ws]
  | cons c rest =>
    have hc := string_trim_ws_head isspace s c rest ht
    cases p with
    | zero => simp [string_trim_ws]
    | succ p =>
      have hdrop : ((c :: rest).take (p + 1)).dropWhile isspace = (c :: rest).take (p + 1) := by
        simp [List.take_succ_cons, List.dropWhile_cons, hc]
      unfold string_trim_ws
      rw [hdrop]
      exact (List.rdropWhile_prefix isspace _).trans (List.take_prefix _ _)

/-- C16. When the trimmed command line t holds, at some index p from 1 on, one
of the characters double quote, slash and hyphen right behind a space, and p is
the smallest such index, DecorateCmdLine sets sExecutable to the trimmed t[0..p),
which is a beginning of t, and sCmdLine to sExecutable between two double quotes
followed by the unchanged remainder of t behind sExecutable. -/
theorem DecorateCmdLine_switch (isspace : Char → Bool) (sCmdLine : List Char) (p : Nat)
    (hp1 : 1 ≤ p) (hp : p < (string_trim_ws isspace sCmdLine).length)
    (hsw : (string_trim_ws isspace sCmdLine).getD p ' ' ∈ ['"', '/', '-'])
    (hsp : (string_trim_ws isspace sCmdLine).getD (p - 1) ' ' = ' ')
    (hmin : ∀ j, j < p → 1 ≤ j →
      ¬((string_trim_ws isspace sCmdLine).getD j ' ' ∈ ['"', '/', '-'] ∧
        (string_trim_ws isspace sCmdLine).getD (j - 1) ' ' = ' ')) :
    DecorateCmdLine isspace sCmdLine =
      some ('"' :: (string_trim_ws isspace ((string_trim_ws isspace sCmdLine).take p) ++
          '"' :: (string_trim_ws isspace sCmdLine).drop
            (string_trim_ws isspace ((string_trim_ws isspace sCmdLine).take p)).length),
        string_trim_ws isspace ((string_trim_ws isspace sCmdLine).take p)) ∧
    string_trim_ws isspace ((string_trim_ws isspace sCmdLine).take p) ++
      (string_trim_ws isspace sCmdLine).drop
        (string_trim_ws isspace ((string_trim_ws isspace sCmdLine).take p)).length =
      string_trim_ws isspace sCmdLine := by
  have hloop := DecorateCmdLineLoop_eq_some (string_trim_ws isspace sCmdLine) p hp
    (by simpa [switchChars] using hsw) hsp
    (fun j hj1 hj2 h => hmin j hj1 hj2 ⟨by simpa [switchChars] using h.1, h.2⟩)
    ((string_trim_ws isspace sCmdLine).length + 1) 0 (by omega) (by omega)
  have hpre := string_trim_ws_take_prefix isspace sCmdLine p
  have htake := List.prefix_iff_eq_take.mp hpre
  have happ := List.prefix_iff_eq_append.mp hpre
  refine ⟨?_, happ⟩
  unfold DecorateCmdLine
  simp only [hloop, string_insert, List.take_zero, List.drop_zero, List.nil_append]
  rw [← htake]

/-- Witness of C16 at the example of the comment: (C:\p ath\ex.exe -p -o) becomes
("C:\p ath\ex.exe" -p -o) with sExecutable = C:\p ath\ex.exe. -/
theorem DecorateCmdLine_switch_witness :
    (DecorateCmdLine Char.isWhitespace sampleCmdLine =
      some ('"' :: (string_trim_ws Char.isWhitespace
            ((string_trim_ws Char.isWhitespace sampleCmdLine).take 16) ++
          '"' :: (string_trim_ws Char.isWhitespace sampleCmdLine).drop
            (string_trim_ws Char.isWhitespace
              ((string_trim_ws Char.isWhitespace sampleCmdLine).take 16)).length),
        string_trim_ws Char.isWhitespace
          ((string_trim_ws Char.isWhitespace sampleCmdLine).take 16)) ∧
      string_trim_ws Char.isWhitespace
          ((string_trim_ws Char.isWhitespace sampleCmdLine).take 16) ++
        (string_trim_ws Char.isWhitespace sampleCmdLine).drop
          (string_trim_ws Char.isWhitespace
            ((string_trim_ws Char.isWhitespace sampleCmdLine).take 16)).length =
        string_trim_ws Char.isWhitespace sampleCmdLine) ∧
    DecorateCmdLine Char.isWhitespace sampleCmdLine =
      some ('"' :: (sampleExecutable ++ '"' :: [' ', '-', 'p', ' ', '-', 'o']),
        sampleExecutable) :=
  ⟨DecorateCmdLine_switch Char.isWhitespace sampleCmdLine 16 (by decide) (by decide)
    (by decide) (by decide) (by decide), by decide⟩

/-- C17, evaluated where it fails: for the command line (C:\p ath\ex.exe), which
names an executable whose path holds a space and carries no switch,
DecorateCmdLine leaves sCmdLine as it is and sets sExecutable to the same text;
sExecutable holds a space, yet sCmdLine does not start with a double quote. -/
theorem DecorateCmdLine_unquoted :
    DecorateCmdLine Char.isWhitespace sampleExecutable =
      some (sampleExecutable, sampleExecutable) ∧
    ' ' ∈ sampleExecutable ∧
    ¬ ('"' :: (sampleExecutable ++ ['"'])) <+: sampleExecutable := by
  decide

/-- The loop of `linelen` returns the index of the first carriage return, line
feed or NUL when that index fits an `int` and enough turns are allowed. -/
theorem linelenLoop_eq_some (string : List Char) (n : Nat) (c : Char)
    (hstop : string[n]? = some c) (hc : c = '\x00' ∨ c = '\r' ∨ c = '\n')
    (hplain : ∀ i, i < n → ∃ d, string[i]? = some d ∧ d ≠ '\x00' ∧ d ≠ '\r' ∧ d ≠ '\n')
    (hint : n ≤ INT_MAX) :
    ∀ (turns k : Nat), k ≤ n → n - k < turns → linelenLoop string turns k = some n := by
  intro turns
  induction turns with
  | zero => intro k _ h; omega
  | succ turns ih =>
    intro k hk hturns
    unfold linelenLoop
    rcases Nat.lt_or_eq_of_le hk with hlt | heq
    · obtain ⟨d, hd, hd0, hd1, hd2⟩ := hplain k hlt
      have hne : k ≠ INT_MAX := by omega
      simp only [hd, hd0, hd1, hd2, hne, if_false, or_self]
      exact ih (k + 1) (by omega) (by omega)
    · subst heq
      rcases hc with h | h | h
      · simp [hstop, h]
      · simp [hstop, h]
      · simp [hstop, h]

/-- The loop of `linelen` leaves defined behaviour when the array holds neither
a carriage return nor a line feed nor a NUL up to index INT_MAX. -/
theorem linelenLoop_eq_none (string : List Char)
    (hplain : ∀ i, i ≤ INT_MAX → string[i]? = none ∨
      ∃ d, string[i]? = some d ∧ d ≠ '\x00' ∧ d ≠ '\r' ∧ d ≠ '\n') :
    ∀ (turns k : Nat), k ≤ INT_MAX → linelenLoop string turns k = none := by
  intro turns
  induction turns with
  | zero => intro k _; rfl
  | succ turns ih =>
    intro k hk
    unfold linelenLoop
    rcases hplain k hk with hnone | ⟨d, hd, hd0, hd1, hd2⟩
    · simp [hnone]
    · by_cases hmax : k = INT_MAX
      · subst hmax
        simp only [hd, hd0, hd1, hd2, if_false, if_true, or_self]
      · simp only [hd, hd0, hd1, hd2, hmax, if_false, or_self]
        exact ih (k + 1) (by omega)

/-- In a NUL-terminated array the index `firstLineEnd` exists, holds a carriage
return, a line feed or a NUL, and is preceded by none of them. -/
theorem firstLineEnd_spec (string : List Char) (hnul : '\x00' ∈ string) :
    (∃ c, string[firstLineEnd string]? = some c ∧ (c = '\x00' ∨ c = '\r' ∨ c = '\n')) ∧
    (∀ i, i < firstLineEnd string →
      ∃ d, string[i]? = some d ∧ d ≠ '\x00' ∧ d ≠ '\r' ∧ d ≠ '\n') ∧
    firstLineEnd string ≤ strlen string := by
  induction string with
  | nil => simp at hnul
  | cons a rest ih =>
    by_cases ha : a ≠ '\x00' ∧ a ≠ '\r' ∧ a ≠ '\n'
    · have hrest : '\x00' ∈ rest := by
        rcases List.mem_cons.mp hnul with h | h
        · exact absurd h.symm ha.1
        · exact h
      obtain ⟨h1, h2, h3⟩ := ih hrest
      have hf : firstLineEnd (a :: rest) = firstLineEnd rest + 1 := by
        simp [firstLineEnd, List.takeWhile_cons, ha]
      have hs : strlen (a :: rest) = strlen rest + 1 := by
        simp [strlen, List.takeWhile_cons, ha.1]
      rw [hf, hs]
      refine ⟨by simpa using h1, ?_, by omega⟩
      intro i hi
      cases i with
      | zero => exact ⟨a, by simp, ha⟩
      | succ i => simpa using h2 i (by omega)
    · have hf : firstLineEnd (a :: rest) = 0 := by
        simp only [firstLineEnd, List.takeWhile_cons]
        simp [ha]
      rw [hf]
      refine ⟨⟨a, by simp, ?_⟩, fun i hi => absurd hi (by omega), Nat.zero_le _⟩
      by_contra hcon
      push_neg at hcon
      exact ha hcon

/-- C20, as stated, fails: for the NUL-terminated string of 2147483648 letters
the counter of `linelen` reaches INT_MAX in front of a letter, and the increment
that follows overflows the `int`, so that no index is returned. -/
theorem linelen_counterexample :
    '\x00' ∈ sampleHugeString ∧ linelen sampleHugeString = none := by
  constructor
  · exact List.mem_append_right _ (List.mem_singleton.mpr rfl)
  · unfold linelen
    apply linelenLoop_eq_none sampleHugeString _ _ 0 (Nat.zero_le _)
    intro i hi
    right
    refine ⟨'a', ?_, by decide, by decide, by decide⟩
    have hlt : i < 2147483648 := by
      unfold INT_MAX at hi
      omega
    unfold sampleHugeString
    rw [List.getElem?_append_left (by rw [List.length_replicate]; exact hlt),
      List.getElem?_replicate, if_pos hlt]

/-- C20, amended. For every NUL-terminated string whose first carriage return,
line feed or NUL lies at an index n of at most INT_MAX, `linelen` returns n: n is
at most the length of the string, no character in front of index n is a carriage
return, a line feed or a NUL, and the character at index n is one of them. -/
theorem linelen_spec (string : List Char) (hnul : '\x00' ∈ string)
    (hint : firstLineEnd string ≤ INT_MAX) :
    linelen string = some (firstLineEnd string) ∧
    firstLineEnd string ≤ strlen string ∧
    (∀ i, i < firstLineEnd string →
      ∃ d, string[i]? = some d ∧ d ≠ '\x00' ∧ d ≠ '\r' ∧ d ≠ '\n') ∧
    (∃ c, string[firstLineEnd string]? = some c ∧ (c = '\x00' ∨ c = '\r' ∨ c = '\n')) := by
  obtain ⟨⟨c, hc1, hc2⟩, hplain, hle⟩ := firstLineEnd_spec string hnul
  refine ⟨?_, hle, hplain, ⟨c, hc1, hc2⟩⟩
  have hlt : firstLineEnd string < string.length := by
    obtain ⟨h, _⟩ := List.getElem?_eq_some.mp hc1
    exact h
  exact linelenLoop_eq_some string (firstLineEnd string) c hc1 hc2 hplain hint
    string.length 0 (Nat.zero_le _) (by omega)

/-- Witness of the amended C20 at a string of two lines: the first line has two
characters. -/
theorem linelen_spec_witness :
    linelen sampleTwoLines = some (firstLineEnd sampleTwoLines) ∧
    firstLineEnd sampleTwoLines = 2 ∧ strlen sampleTwoLines = 5 :=
  ⟨(linelen_spec sampleTwoLines (by decide) (by decide)).1, by decide, by decide⟩

/-! ## Message texts (ExternalArchiveFormat.cpp) -/

/-- One more line break: the text with breaks up to offset (j+1)W is the text
with breaks up to jW, cut behind chunk j, a line feed and the rest. -/
theorem withLineBreaks_succ (s : List Char) (W j : Nat) :
    withLineBreaks s W (j + 1) =
      (List.range j).flatMap (fun k => (s.drop (k * W)).take W ++ ['\n']) ++
        ((s.drop (j * W)).take W ++ '\n' :: s.drop ((j + 1) * W)) := by
  unfold withLineBreaks
  rw [List.range_succ, List.flatMap_append, List.flatMap_singleton]
  simp [List.append_assoc]

/-- A chunk in front of the place of an insertion is not changed by it. -/
theorem take_drop_string_insert (s : List Char) (n a W : Nat) (c : Char)
    (hn : n ≤ s.length) (ha : a + W ≤ n) :
    ((string_insert s n c).drop a).take W = (s.drop a).take W := by
  unfold string_insert
  have hlen : (s.take n).length = n := List.length_take_of_le hn
  rw [List.drop_append_of_le_length (by omega),
    List.take_append_of_le_length (by rw [List.length_drop]; omega),
    List.drop_take, List.take_take]
  congr 1
  omega

/-- What lies behind the last chunk in front of an insertion. -/
theorem drop_string_insert (s : List Char) (n a W : Nat) (c : Char)
    (hn : n ≤ s.length) (ha : a + W = n) :
    (string_insert s n c).drop a = (s.drop a).take W ++ c :: s.drop n := by
  unfold string_insert
  have hlen : (s.take n).length = n := List.length_take_of_le hn
  rw [List.drop_append_of_le_length (by omega), List.drop_take]
  congr 2
  omega

/-- The loop of `SP2NBSP`, started at i = (j+1)W with enough turns allowed,
inserts a line feed at each of the offsets jW, ..., 2W, W. -/
theorem SP2NBSPLoop_eq (W : Nat) (hW : 0 < W) :
    ∀ (j turns : Nat) (str : List Char), j < turns → j * W ≤ str.length →
      SP2NBSPLoop W turns ((j + 1) * W) str = some (withLineBreaks str W j) := by
  intro j
  induction j with
  | zero =>
    intro turns str hturns _
    obtain ⟨t, rfl⟩ : ∃ t, turns = t + 1 := ⟨turns - 1, by omega⟩
    simp [SP2NBSPLoop, withLineBreaks]
  | succ j ih =>
    intro turns str hturns hlen
    obtain ⟨t, rfl⟩ : ∃ t, turns = t + 1 := ⟨turns - 1, by omega⟩
    have hgt : (j + 1 + 1) * W > W := by
      have : (j + 1 + 1) * W = j * W + W + W := by ring
      have : 0 ≤ j * W := Nat.zero_le _
      omega
    have hsub : (j + 1 + 1) * W - W = (j + 1) * W := by
      have : (j + 1 + 1) * W = (j + 1) * W + W := by ring
      omega
    have hjW : (j + 1) * W = j * W + W := by ring
    unfold SP2NBSPLoop
    rw [if_pos hgt, hsub]
    have hlen2 : j * W ≤ (string_insert str ((j + 1) * W) '\n').length := by
      simp only [string_insert, List.length_append, List.length_cons, List.length_take,
        List.length_drop]
      omega
    rw [ih t _ (by omega) hlen2, withLineBreaks_succ]
    unfold withLineBreaks
    congr 1
    rw [drop_string_insert str ((j + 1) * W) (j * W) W '\n' hlen (by omega)]
    congr 1
    apply List.flatMap_congr
    intro k hk
    rw [List.mem_range] at hk
    have hk2 : k * W + W ≤ (j + 1) * W := by
      have h1 : (k + 1) * W ≤ j * W := Nat.mul_le_mul_right W hk
      have h2 : (k + 1) * W = k * W + W := by ring
      omega
    rw [take_drop_string_insert str ((j + 1) * W) (k * W) W '\n' hlen hk2]

/-- The length of a text with j line breaks. -/
theorem length_withLineBreaks (s : List Char) (W : Nat) :
    ∀ j : Nat, j * W ≤ s.length → (withLineBreaks s W j).length = s.length + j := by
  intro j
  induction j with
  | zero => intro _; simp [withLineBreaks]
  | succ j ih =>
    intro h
    have hjW : (j + 1) * W = j * W + W := by ring
    have ih2 := ih (by omega)
    rw [withLineBreaks_succ]
    unfold withLineBreaks at ih2
    simp only [List.length_append, List.length_cons, List.length_take, List.length_drop]
      at ih2 ⊢
    omega

/-- A text with line breaks holds no other characters than the text and the
line feed. -/
theorem mem_withLineBreaks (s : List Char) (W j : Nat) (c : Char)
    (h : c ∈ withLineBreaks s W j) : c ∈ s ∨ c = '\n' := by
  unfold withLineBreaks at h
  rcases List.mem_append.mp h with h1 | h1
  · obtain ⟨k, _, hk⟩ := List.mem_flatMap.mp h1
    rcases List.mem_append.mp hk with h2 | h2
    · exact Or.inl (List.mem_of_mem_drop (List.mem_of_mem_take h2))
    · exact Or.inr (List.mem_singleton.mp h2)
  · exact Or.inl (List.mem_of_mem_drop h1)

/-- No space is left once the spaces are replaced. -/
theorem not_mem_string_replace (s : List Char) : ' ' ∉ string_replace s ' ' '\xA0' := by
  unfold string_replace
  intro h
  obtain ⟨c, _, hc⟩ := List.mem_map.mp h
  by_cases hsp : c = ' '
  · rw [if_pos hsp] at hc
    exact absurd hc (by decide)
  · rw [if_neg hsp] at hc
    exact hsp hc

/-- The length of the text is not changed by the replacement. -/
theorem length_string_replace (s : List Char) (a b : Char) :
    (string_replace s a b).length = s.length := by
  simp [string_replace]

/-- Arithmetic of the line count: the last line starts inside the text and ends
at its end. -/
theorem lineCount_bounds (L W : Nat) (hW : 0 < W) (hL : 0 < L) :
    1 ≤ lineCount L W ∧ (lineCount L W - 1) * W + 1 ≤ L ∧ L ≤ (lineCount L W - 1) * W + W := by
  unfold lineCount
  have h1 : (L + W - 1) / W * W ≤ L + W - 1 := Nat.div_mul_le_self _ _
  have h2 : L + W - 1 < W * ((L + W - 1) / W + 1) := Nat.lt_mul_div_succ _ hW
  have h3 : 1 ≤ (L + W - 1) / W := (Nat.one_le_div_iff hW).mpr (by omega)
  obtain ⟨m, hm⟩ : ∃ m, (L + W - 1) / W = m + 1 := ⟨(L + W - 1) / W - 1, by omega⟩
  rw [hm] at h1 h2 ⊢
  have e1 : (m + 1) * W = m * W + W := by ring
  have e2 : W * (m + 1 + 1) = m * W + W + W := by ring
  simp only [Nat.add_sub_cancel]
  omega

/-- What `SP2NBSP` returns for a positive width: the text with the spaces
replaced and a line feed inserted in front of every line but the first. -/
theorem SP2NBSP_eq (sizeBits : Nat) (pszText : List Char) (nWidth : Nat)
    (hW : 0 < nWidth) (hWmax : nWidth < 2 ^ sizeBits)
    (hL : 2 * pszText.length ≤ 2 ^ sizeBits) :
    SP2NBSP sizeBits pszText nWidth =
      some (withLineBreaks (string_replace pszText ' ' '\xA0') nWidth
        (lineCount pszText.length nWidth - 1)) := by
  unfold SP2NBSP
  rw [if_pos (by omega), length_string_replace]
  show SP2NBSPLoop nWidth
      ((pszText.length + nWidth - 1) % 2 ^ sizeBits / nWidth * nWidth + 1)
      ((pszText.length + nWidth - 1) % 2 ^ sizeBits / nWidth * nWidth)
      (string_replace pszText ' ' '\xA0') = _
  have hzero : ∀ (str : List Char), SP2NBSPLoop nWidth (0 + 1) 0 str = some str := by
    intro str
    simp [SP2NBSPLoop]
  have hbreaks0 : withLineBreaks (string_replace pszText ' ' '\xA0') nWidth 0 =
      string_replace pszText ' ' '\xA0' := by
    simp [withLineBreaks]
  by_cases hwrap : pszText.length + nWidth - 1 < 2 ^ sizeBits
  · rw [Nat.mod_eq_of_lt hwrap]
    by_cases hL0 : pszText.length = 0
    · have hm : (pszText.length + nWidth - 1) / nWidth = 0 :=
        Nat.div_eq_of_lt (by omega)
      simp only [lineCount, hm, Nat.zero_mul, Nat.zero_sub]
      rw [hzero, hbreaks0]
    · obtain ⟨h1, h2, _⟩ := lineCount_bounds pszText.length nWidth hW (by omega)
      unfold lineCount at h1 h2 ⊢
      obtain ⟨m, hm⟩ : ∃ m, (pszText.length + nWidth - 1) / nWidth = m + 1 :=
        ⟨(pszText.length + nWidth - 1) / nWidth - 1, by omega⟩
      rw [hm] at h2 ⊢
      simp only [Nat.add_sub_cancel] at h2 ⊢
      have hle : m ≤ (m + 1) * nWidth := by
        have := Nat.le_mul_of_pos_right (m + 1) hW
        omega
      exact SP2NBSPLoop_eq nWidth hW m _ _ (by omega)
        (by rw [length_string_replace]; omega)
  · have hmod : (pszText.length + nWidth - 1) % 2 ^ sizeBits =
        pszText.length + nWidth - 1 - 2 ^ sizeBits := by
      rw [Nat.mod_eq_sub_mod (by omega), Nat.mod_eq_of_lt (by omega)]
    have hdiv : (pszText.length + nWidth - 1 - 2 ^ sizeBits) / nWidth = 0 :=
      Nat.div_eq_of_lt (by omega)
    have hm : (pszText.length + nWidth - 1) / nWidth = 1 :=
      Nat.div_eq_of_lt_le (by omega) (by omega)
    rw [hmod, hdiv]
    simp only [lineCount, hm, Nat.zero_mul, Nat.sub_self]
    rw [hzero, hbreaks0]

/-- C18. For every text of L characters and every width W > 0 (a value of
size_type, the text fitting the address space), SP2NBSP returns the text s with
every space turned into U+00A0 and a line feed inserted at exactly the original
offsets W, 2W, ..., (ceil(L/W)-1)*W: the result holds no space, its length is
L + max(0, ceil(L/W) - 1), each of the ceil(L/W) - 1 chunks in front of an
inserted line feed has exactly W characters, and the last of the ceil(L/W)
chunks has between 1 and W characters; for W = 0 no line feed is inserted. -/
theorem SP2NBSP_spec (sizeBits : Nat) (pszText : List Char) (nWidth : Nat)
    (hW : 0 < nWidth) (hWmax : nWidth < 2 ^ sizeBits)
    (hL : 2 * pszText.length ≤ 2 ^ sizeBits) :
    (∃ result, SP2NBSP sizeBits pszText nWidth = some result ∧
      result = withLineBreaks (string_replace pszText ' ' '\xA0') nWidth
        (lineCount pszText.length nWidth - 1) ∧
      ' ' ∉ result ∧
      result.length = pszText.length + (lineCount pszText.length nWidth - 1)) ∧
    (∀ k, k < lineCount pszText.length nWidth - 1 →
      (((string_replace pszText ' ' '\xA0').drop (k * nWidth)).take nWidth).length = nWidth) ∧
    (1 ≤ lineCount pszText.length nWidth →
      1 ≤ ((string_replace pszText ' ' '\xA0').drop
        ((lineCount pszText.length nWidth - 1) * nWidth)).length ∧
      ((string_replace pszText ' ' '\xA0').drop
        ((lineCount pszText.length nWidth - 1) * nWidth)).length ≤ nWidth) ∧
    SP2NBSP sizeBits pszText 0 = some (string_replace pszText ' ' '\xA0') := by
  have hstart : (lineCount pszText.length nWidth - 1) * nWidth ≤ pszText.length := by
    by_cases hL0 : pszText.length = 0
    · have hm : lineCount pszText.length nWidth = 0 := by
        unfold lineCount
        exact Nat.div_eq_of_lt (by omega)
      rw [hm]
      omega
    · have := (lineCount_bounds pszText.length nWidth hW (by omega)).2.1
      omega
  refine ⟨⟨_, SP2NBSP_eq sizeBits pszText nWidth hW hWmax hL, rfl, ?_, ?_⟩, ?_, ?_, ?_⟩
  · intro hmem
    rcases mem_withLineBreaks _ _ _ _ hmem with h | h
    · exact not_mem_string_replace pszText h
    · exact absurd h (by decide)
  · rw [length_withLineBreaks _ _ _ (by rw [length_string_replace]; exact hstart),
      length_string_replace]
  · intro k hk
    have h1 : (k + 1) * nWidth ≤ (lineCount pszText.length nWidth - 1) * nWidth :=
      Nat.mul_le_mul_right nWidth hk
    have h2 : (k + 1) * nWidth = k * nWidth + nWidth := by ring
    rw [List.length_take, List.length_drop, length_string_replace]
    omega
  · intro hm
    have hpos : 0 < pszText.length := by
      by_contra hcon
      have h0 : lineCount pszText.length nWidth = 0 := by
        unfold lineCount
        exact Nat.div_eq_of_lt (by omega)
      omega
    obtain ⟨_, h2, h3⟩ := lineCount_bounds pszText.length nWidth hW hpos
    rw [List.length_drop, length_string_replace]
    omega
  · simp [SP2NBSP]

/-- Witness of C18 at a text of seven characters and width three, with 32 bit
sizes: two line feeds are inserted, at the offsets 3 and 6. -/
theorem SP2NBSP_spec_witness :
    (∃ result, SP2NBSP 32 sampleText 3 = some result ∧
      result = withLineBreaks (string_replace sampleText ' ' '\xA0') 3
        (lineCount sampleText.length 3 - 1) ∧
      ' ' ∉ result ∧
      result.length = sampleText.length + (lineCount sampleText.length 3 - 1)) ∧
    SP2NBSP 32 sampleText 3 =
      some ['a', '\xA0', 'b', '\n', 'c', '\xA0', 'd', '\n', 'e'] :=
  ⟨(SP2NBSP_spec 32 sampleText 3 (by decide) (by decide) (by decide)).1, by decide⟩

/-! ## The classifier: directories and files -/

namespace CompareStats

open RESULT

/-- C19. The category of a directory is one of DIFFIMG_ERROR, DIFFIMG_ABORT,
DIFFIMG_DIRSKIP, DIFFIMG_LDIRUNIQUE, DIFFIMG_RDIRUNIQUE, DIFFIMG_DIRSAME,
DIFFIMG_DIRDIFF and DIFFIMG_DIR, and does not depend on the text and binary
flags; the category of an item that is not a directory is none of the six
directory categories DIFFIMG_DIRSKIP, DIFFIMG_LDIRUNIQUE, DIFFIMG_RDIRUNIQUE,
DIFFIMG_DIRSAME, DIFFIMG_DIRDIFF and DIFFIMG_DIR. -/
theorem GetColImage_directory_split (di : DIFFITEM) :
    (di.isDirectory = true →
      GetColImage di ∈ [DIFFIMG_ERROR, DIFFIMG_ABORT, DIFFIMG_DIRSKIP, DIFFIMG_LDIRUNIQUE,
        DIFFIMG_RDIRUNIQUE, DIFFIMG_DIRSAME, DIFFIMG_DIRDIFF, DIFFIMG_DIR] ∧
      ∀ t b : Bool, GetColImage { di with isText := t, isBin := b } = GetColImage di) ∧
    (di.isDirectory = false →
      GetColImage di ∉ [DIFFIMG_DIRSKIP, DIFFIMG_LDIRUNIQUE, DIFFIMG_RDIRUNIQUE,
        DIFFIMG_DIRSAME, DIFFIMG_DIRDIFF, DIFFIMG_DIR]) := by
  obtain ⟨e, a, f, l, r, s, d, dir, t, b⟩ := di
  cases e <;> cases a <;> cases f <;> cases l <;> cases r <;> cases s <;>
    cases d <;> cases dir <;> cases t <;> cases b <;> simp [GetColImage]

/-- Witness of C19 at a filtered directory flagged identical and at a file
flagged both text and binary. -/
theorem GetColImage_directory_split_witness :
    (GetColImage sampleFilteredDir ∈ [DIFFIMG_ERROR, DIFFIMG_ABORT, DIFFIMG_DIRSKIP,
        DIFFIMG_LDIRUNIQUE, DIFFIMG_RDIRUNIQUE, DIFFIMG_DIRSAME, DIFFIMG_DIRDIFF,
        DIFFIMG_DIR] ∧
      ∀ t b : Bool, GetColImage { sampleFilteredDir with isText := t, isBin := b } =
        GetColImage sampleFilteredDir) ∧
    GetColImage sampleSameTextBin ∉ [DIFFIMG_DIRSKIP, DIFFIMG_LDIRUNIQUE,
      DIFFIMG_RDIRUNIQUE, DIFFIMG_DIRSAME, DIFFIMG_DIRDIFF, DIFFIMG_DIR] :=
  ⟨(GetColImage_directory_split sampleFilteredDir).1 rfl,
   (GetColImage_directory_split sampleSameTextBin).2 rfl⟩

end CompareStats
